import Mathlib

/-!
Shallow embedding of the Christmas-Wishlist server (`server.js`).

The store is a JSON document `{ people, items }`; every HTTP handler loads
it, normalizes legacy fields, mutates the in-memory copy, and (on success)
writes it back.  We model the loaded document with typed structures where a
field that may be absent / `null` / `undefined` in the JSON is an `Option`.
JavaScript truthiness on those fields (`""`, `0`, `null`, `undefined` are
falsy) is made explicit through the `truthy*` helpers.  Each endpoint is a
pure function from the on-disk store and the request parameters to the
response and the store that is persisted afterwards (the original store
when the handler returns before `saveData`).
-/

namespace Wishlist

/-- JavaScript `a || b` for a possibly-absent string `a`: the value of `a`
when it is present and non-empty, else `b`. -/
def jsOrStr (a : Option String) (b : String) : String :=
  match a with
  | some s => if s = "" then b else s
  | none => b

/-- Truthiness of a string field (`undefined`/`null` and `""` are falsy). -/
def truthyS (o : Option String) : Bool :=
  match o with
  | some s => s != ""
  | none => false

/-- Truthiness of a numeric field (`undefined`/`null`, `NaN` and `0` are falsy). -/
def truthyN (o : Option Int) : Bool :=
  match o with
  | some n => n != 0
  | none => false

/-- Drop leading whitespace characters. -/
def trimLeftChars : List Char → List Char
  | [] => []
  | c :: rest => if c.isWhitespace then trimLeftChars rest else c :: rest

/-- JavaScript `s.trim()`: drop whitespace from both ends.  Structurally
recursive so that concrete instances evaluate inside the kernel. -/
def jsTrim (s : String) : String :=
  String.mk ((trimLeftChars (trimLeftChars s.data).reverse).reverse)

/-- Split a character list at every separator character; like
`String.split`, a leading, trailing or doubled separator produces empty
fragments. -/
def splitChars (p : Char → Bool) : List Char → List Char → List String
  | [], cur => [String.mk cur.reverse]
  | c :: rest, cur =>
    if p c then String.mk cur.reverse :: splitChars p rest []
    else splitChars p rest (c :: cur)

/-- Splitting a string at separator characters. -/
def jsSplit (p : Char → Bool) (s : String) : List String := splitChars p s.data []

/-- ASCII lower-casing of one character (the only case the repository's
codes exercise). -/
def jsLowerChar (c : Char) : Char :=
  if 'A' ≤ c ∧ c ≤ 'Z' then Char.ofNat (c.toNat + 32) else c

/-- JavaScript `s.toLowerCase()` on ASCII strings. -/
def jsToLower (s : String) : String := String.mk (s.data.map jsLowerChar)

/-- JavaScript `Number(x) || 0` for a numeric-or-absent field. -/
def numOrZero (o : Option Int) : Int :=
  match o with
  | some n => n
  | none => 0

/-- JavaScript `v || null` for a nullable string value. -/
def jsValOrNull (vo : Option String) : Option String :=
  match vo with
  | some s => if s = "" then none else some s
  | none => none

/-- JavaScript `(v || '').trim() || 'default'`. -/
def newFamVal (v : String) : String :=
  if jsTrim v = "" then "default" else jsTrim v

/-- JavaScript `(tags && tags.join('/')) || ''` for a tags field. -/
def jsTagJoin (t : Option (List String)) : String :=
  match t with
  | some l => String.intercalate "/" l
  | none => ""

/-- Split on any of the separator characters, trim, drop empties.  The
source splits with a regex character class under `+`; merging adjacent
separators only produces extra empty fragments, which `filter(Boolean)`
removes, so splitting on single characters followed by the same filter
yields the same list. -/
def splitTags (seps : List Char) (s : String) : List String :=
  ((jsSplit (fun c => c ∈ seps) s).map jsTrim).filter (fun t => t != "")

/-- Decimal digits to a number, `none` when the list is empty or contains a
non-digit. -/
def digitsVal (cs : List Char) : Option Nat :=
  if cs = [] then none
  else if cs.all Char.isDigit then
    some (cs.foldl (fun n c => n * 10 + (c.toNat - 48)) 0)
  else none

/-- JavaScript `Number(s)` restricted to signed decimal integer literals:
trims, maps the blank string to `0`, parses an optionally signed decimal
integer, and returns `none` (`NaN`) otherwise.  `Number` also accepts
floats, exponents and radix prefixes, which this model does not cover; the
theorems therefore evaluate it only on blank cells — where `Number` is the
falsy `0` on both sides — and on concrete decimal literals. -/
def jsNum (s : String) : Option Int :=
  let t := jsTrim s
  if t = "" then some 0
  else
    match t.data with
    | '-' :: rest => (digitsVal rest).map (fun n => -(n : Int))
    | '+' :: rest => (digitsVal rest).map (fun n => (n : Int))
    | cs => (digitsVal cs).map (fun n => (n : Int))

/-- A person record of the store. -/
structure Person where
  code : String
  name : String
  preferences : String
  family : Option String
deriving DecidableEq

/-- An item record of the store.  `id`/`itemId` are numeric or absent,
`details`/`notes`/`tag` are strings or absent, `tags` is an array or
absent, `claimedByCode` is a string or `null`, `family` is a string or
absent. -/
structure Item where
  id : Option Int
  itemId : Option Int
  recipientCode : String
  recipientName : String
  itemName : String
  details : Option String
  notes : Option String
  url : String
  tags : Option (List String)
  tag : Option String
  claimedByCode : Option String
  family : Option String
deriving DecidableEq

/-- The whole persisted document. -/
structure Store where
  people : List Person
  items : List Item
deriving DecidableEq

/-- A JSON response: the `success` flag, the `message` field (empty when the
handler sends none) and the HTTP status. -/
structure ApiResult where
  success : Bool
  message : String
  status : Nat
deriving DecidableEq

/-- `String(i.family || 'default')` for an item. -/
def famOf (i : Item) : String := jsOrStr i.family "default"

/-- `String(p.family || 'default')` for a person. -/
def famOfP (p : Person) : String := jsOrStr p.family "default"

/-- Resolution of the `family` request parameter: `a || b || 'default'`. -/
def reqFamily (a b : Option String) : String := jsOrStr a (jsOrStr b "default")

/-- In-place mutation of the object returned by `Array.prototype.find`:
apply `f` to the first element satisfying `p`. -/
def updateFirst (p : α → Bool) (f : α → α) : List α → List α
  | [] => []
  | x :: xs => if p x then f x :: xs else x :: updateFirst p f xs

/-- `findIndex` followed by `splice(idx, 1)`: drop the first element
satisfying `p`. -/
def removeFirst (p : α → Bool) : List α → List α
  | [] => []
  | x :: xs => if p x then xs else x :: removeFirst p xs

/-! ## `loadData` normalization -/

/-- Truthiness of `typeof tag === 'string' && tag.trim() !== ''`. -/
def truthyTrim (o : Option String) : Bool :=
  match o with
  | some t => jsTrim t != ""
  | none => false

/-- The id-backfill step of `loadData`: if `id` is falsy, prefer a truthy
numeric `itemId`, else assign `maxId + 1`; returns the updated running
maximum together with the item. -/
def normIdStep (maxId : Int) (it : Item) : Int × Item :=
  if truthyN it.id then (maxId, it)
  else
    match it.itemId with
    | some n =>
      if n != 0 then ((if n > maxId then n else maxId), { it with id := some n })
      else (maxId + 1, { it with id := some (maxId + 1) })
    | none => (maxId + 1, { it with id := some (maxId + 1) })

/-- Derive `details` from legacy `notes` when `details` is absent. -/
def normDetailsStep (it : Item) : Item :=
  if it.details.isSome then it else { it with details := some (it.notes.getD "") }

/-- Derive the `tags` array from the legacy `tag` string when `tags` is not
an array (split on `/`, `|` or `,`). -/
def normTagsStep (it : Item) : Item :=
  match it.tags with
  | some _ => it
  | none =>
    { it with
      tags := some (if truthyTrim it.tag then splitTags ['/', '|', ','] (it.tag.getD "") else []) }

/-- Default the item `family` to `"default"` when missing or falsy. -/
def normFamilyStep (it : Item) : Item :=
  if truthyS it.family then it else { it with family := some "default" }

/-- One iteration of the `loadData` item loop.  The `claimedByCode` backfill
(`null` when the key is missing) is invisible here because the embedding
already identifies a missing key with `null`. -/
def normItem (maxId : Int) (it : Item) : Int × Item :=
  let s := normIdStep maxId it
  (s.1, normFamilyStep (normTagsStep (normDetailsStep s.2)))

/-- The `forEach` over the items, threading the running `maxId`. -/
def normItemsGo (maxId : Int) : List Item → List Item
  | [] => []
  | it :: rest => (normItem maxId it).2 :: normItemsGo (normItem maxId it).1 rest

/-- One step of the max-id reduction:
`Math.max(m, Number(it.id) || 0, Number(it.itemId) || 0)`. -/
def maxStep (m : Int) (it : Item) : Int :=
  max (max m (numOrZero it.id)) (numOrZero it.itemId)

/-- `items.reduce((m, it) => Math.max(m, Number(it.id) || 0, Number(it.itemId) || 0), 0)`. -/
def storeMaxId (items : List Item) : Int :=
  items.foldl maxStep 0

/-- Default the person `family` to `"default"` when missing or falsy. -/
def normPerson (p : Person) : Person :=
  if truthyS p.family then p else { p with family := some "default" }

/-- The normalization `loadData` performs on every load. -/
def normalizeStore (s : Store) : Store :=
  { people := s.people.map normPerson
    items := normItemsGo (storeMaxId s.items) s.items }

/-! ## CSV parsing (`parseCsvText`) -/

/-- `text.replace(/\r\n/g, '\n').replace(/\r/g, '\n')`. -/
def normNewlines : List Char → List Char
  | [] => []
  | '\r' :: '\n' :: rest => '\n' :: normNewlines rest
  | '\r' :: rest => '\n' :: normNewlines rest
  | c :: rest => c :: normNewlines rest

/-- The row-splitting loop of `parseCsvText`: split at newlines outside
quotes; a quote toggles the in-quotes flag (and is dropped), a doubled
quote inside quotes denotes a literal quote.  `cur` holds the current row
reversed, `rows` the finished rows reversed. -/
def scanRowsGo : List Char → Bool → List Char → List String → List String
  | [], _, cur, rows =>
    (if cur = [] then rows else String.mk cur.reverse :: rows).reverse
  | '"' :: '"' :: rest, true, cur, rows => scanRowsGo rest true ('"' :: cur) rows
  | '"' :: rest, true, cur, rows => scanRowsGo rest false cur rows
  | '"' :: rest, false, cur, rows => scanRowsGo rest true cur rows
  | '\n' :: rest, inQ, cur, rows =>
    if inQ then scanRowsGo rest inQ ('\n' :: cur) rows
    else scanRowsGo rest inQ [] (String.mk cur.reverse :: rows)
  | c :: rest, inQ, cur, rows => scanRowsGo rest inQ (c :: cur) rows

/-- The cell-splitting loop of `splitRow`: split at commas outside quotes,
with the same quote handling as the row loop.  The final cell is always
pushed. -/
def splitRowGo : List Char → Bool → List Char → List String → List String
  | [], _, cell, cols => (String.mk cell.reverse :: cols).reverse
  | '"' :: '"' :: rest, true, cell, cols => splitRowGo rest true ('"' :: cell) cols
  | '"' :: rest, true, cell, cols => splitRowGo rest false cell cols
  | '"' :: rest, false, cell, cols => splitRowGo rest true cell cols
  | ',' :: rest, inQ, cell, cols =>
    if inQ then splitRowGo rest inQ (',' :: cell) cols
    else splitRowGo rest inQ [] (String.mk cell.reverse :: cols)
  | c :: rest, inQ, cell, cols => splitRowGo rest inQ (c :: cell) cols

/-- `splitRow`: split a row into trimmed cells. -/
def splitRow (row : String) : List String :=
  (splitRowGo row.data false [] []).map jsTrim

/-- Build the record object of one data row: lower-cased header cells as
keys (positional `colN` for empty header cells), missing trailing cells
default to the empty string. -/
def buildObj (header fields : List String) : List (String × String) :=
  (List.range header.length).map (fun c =>
    ((if (header.get? c).getD "" != "" then jsToLower ((header.get? c).getD "")
      else "col" ++ toString c),
     (fields.get? c).getD ""))

/-- Read a property of a row object; the last assignment to a key wins, as
for a JavaScript object literal built by repeated assignment. -/
def objGet (o : List (String × String)) (k : String) : Option String :=
  (o.reverse.find? (fun kv => kv.1 == k)).map (fun kv => kv.2)

/-- `parseCsvText`: header row plus one record per non-blank data row. -/
def parseCsvText (text : String) : List (List (String × String)) :=
  let rows := scanRowsGo (normNewlines text.data) false [] []
  match rows with
  | [] => []
  | headerRow :: rest =>
    let header := (splitRow headerRow).map jsTrim
    rest.filterMap (fun row =>
      if jsTrim row = "" then none else some (buildObj header (splitRow row)))

/-! ## CSV upload handler (`POST /api/admin/upload-csv-text`) -/

/-- The raw string the upload handler feeds to `Number` when looking for a
row-supplied id: `r.itemid || r.id || ''`. -/
def csvRecIdCell (r : List (String × String)) : String :=
  jsOrStr (objGet r "itemid") (jsOrStr (objGet r "id") "")

/-- `Number(r.itemid || r.id || '')` for a CSV record. -/
def csvRecId (r : List (String × String)) : Option Int :=
  jsNum (csvRecIdCell r)

/-- Map one CSV record to a new item, threading the running `maxId`. -/
def mkCsvItem (bodyFamily : Option String) (maxId : Int) (r : List (String × String)) :
    Int × Item :=
  let idNum := csvRecId r
  let p : Int × Int :=
    if truthyN idNum then
      ((if numOrZero idNum > maxId then numOrZero idNum else maxId), numOrZero idNum)
    else (maxId + 1, maxId + 1)
  let details := jsOrStr (objGet r "details") (jsOrStr (objGet r "notes") "")
  let rawTags := jsOrStr (objGet r "tags") (jsOrStr (objGet r "tag") "")
  let tags : List String :=
    if jsTrim rawTags != "" then splitTags ['/', '|', ',', ';'] rawTags else []
  let claimed := jsOrStr (objGet r "claimedbycode") (jsOrStr (objGet r "claimedby") "")
  (p.1,
   { id := some p.2
     itemId := some p.2
     recipientCode := jsOrStr (objGet r "recipientcode") (jsOrStr (objGet r "recipient") "")
     recipientName := jsOrStr (objGet r "recipientname") (jsOrStr (objGet r "recipient") "")
     itemName := jsOrStr (objGet r "itemname") (jsOrStr (objGet r "name") "")
     details := some details
     notes := some details
     url := jsOrStr (objGet r "url") ""
     tags := some tags
     tag := some (jsTagJoin (some tags))
     claimedByCode := if claimed = "" then none else some claimed
     family := some (jsOrStr (objGet r "family") (jsOrStr bodyFamily "default")) })

/-- The `records.forEach` loop building the new items. -/
def csvMapGo (bodyFamily : Option String) (maxId : Int) :
    List (List (String × String)) → List Item
  | [] => []
  | r :: rest =>
    (mkCsvItem bodyFamily maxId r).2 :: csvMapGo bodyFamily (mkCsvItem bodyFamily maxId r).1 rest

/-- The CSV upload endpoint: 400 on a missing `csv` field, a zero-added
success on an empty record list (before touching the store), else append
the mapped items and save. -/
def uploadCsvText (disk : Store) (csv : String) (bodyFamily : Option String) :
    ApiResult × Store :=
  if csv = "" then
    ({ success := false, message := "Missing csv text in request body (field `csv`).",
       status := 400 }, disk)
  else
    let records := parseCsvText csv
    if records = [] then
      ({ success := true, message := "No rows to add.", status := 200 }, disk)
    else
      let data := normalizeStore disk
      ({ success := true, message := "", status := 200 },
       { data with items := data.items ++ csvMapGo bodyFamily (storeMaxId data.items) records })

/-! ## Claim / unclaim handlers -/

/-- The item lookup of the claim/unclaim handlers:
`i.id === idNum && String(i.family || 'default') === String(family)`. -/
def itemPred (idNum : Int) (family : String) (i : Item) : Bool :=
  i.id == some idNum && famOf i == family

/-- `item.claimedByCode = v`. -/
def setClaim (v : Option String) (i : Item) : Item := { i with claimedByCode := v }

/-- `POST /api/claim`. -/
def claimEndpoint (disk : Store) (viewerCode : String) (idNum : Int)
    (bodyFamily qFamily : Option String) : ApiResult × Store :=
  let family := reqFamily bodyFamily qFamily
  let data := normalizeStore disk
  match data.items.find? (itemPred idNum family) with
  | none => ({ success := false, message := "Item not found.", status := 200 }, disk)
  | some item =>
    if truthyS item.claimedByCode && item.claimedByCode != some viewerCode then
      ({ success := false, message := "This item was already claimed.", status := 200 }, disk)
    else
      ({ success := true, message := "", status := 200 },
       { data with
         items := updateFirst (itemPred idNum family) (setClaim (some viewerCode)) data.items })

/-- `POST /api/unclaim`. -/
def unclaimEndpoint (disk : Store) (viewerCode : String) (idNum : Int)
    (bodyFamily qFamily : Option String) : ApiResult × Store :=
  let family := reqFamily bodyFamily qFamily
  let data := normalizeStore disk
  match data.items.find? (itemPred idNum family) with
  | none => ({ success := false, message := "Item not found.", status := 200 }, disk)
  | some item =>
    if item.claimedByCode != some viewerCode then
      ({ success := false, message := "You can only unclaim items you claimed.",
         status := 200 }, disk)
    else
      ({ success := true, message := "", status := 200 },
       { data with
         items := updateFirst (itemPred idNum family) (setClaim none) data.items })

/-! ## Admin item update (`PUT /api/admin/item/:id`) -/

/-- A `tags` value in the update body: an array or a string. -/
inductive TagsVal where
  | arr (l : List String)
  | str (s : String)
deriving DecidableEq

/-- The update body of `PUT /api/admin/item/:id`; `none` marks a key that is
absent from the body. -/
structure ItemBody where
  recipientCode : Option String
  recipientName : Option String
  itemName : Option String
  details : Option String
  notes : Option String
  url : Option String
  claimedByCode : Option (Option String)
  tags : Option TagsVal
  family : Option String
deriving DecidableEq

/-- The item lookup of the admin update:
`(Number(i.id) === id || Number(i.itemId) === id) && family matches`. -/
def adminPred (idNum : Int) (family : String) (i : Item) : Bool :=
  (i.id == some idNum || i.itemId == some idNum) && famOf i == family

/-- The field updates of the admin item handler.  The `notes` body field
overwrites `details` using the possibly-just-updated `details` as fallback,
exactly as the sequential assignments do. -/
def adminApplyFields (body : ItemBody) (it : Item) : Item :=
  let details1 := match body.details with
    | some v => some v
    | none => it.details
  let details2 := match body.notes with
    | some v => some (jsOrStr (some v) (jsOrStr details1 ""))
    | none => details1
  let tags2 := match body.tags with
    | some (TagsVal.arr l) => some ((l.map jsTrim).filter (fun t => t != ""))
    | some (TagsVal.str sv) => some (splitTags ['/', '|', ',', ';'] sv)
    | none => it.tags
  { it with
    recipientCode := match body.recipientCode with
      | some v => v
      | none => it.recipientCode
    recipientName := match body.recipientName with
      | some v => v
      | none => it.recipientName
    itemName := match body.itemName with
      | some v => v
      | none => it.itemName
    details := details2
    url := match body.url with
      | some v => v
      | none => it.url
    claimedByCode := match body.claimedByCode with
      | some vo => jsValOrNull vo
      | none => it.claimedByCode
    tags := tags2 }

/-- The trailing legacy-sync and family steps of the admin item handler:
`item.notes = item.details; item.tag = (item.tags && item.tags.join('/')) || '';
if (!item.family) item.family = family`. -/
def adminFinish (family : String) (it : Item) : Item :=
  let it2 := { it with notes := it.details, tag := some (jsTagJoin it.tags) }
  if truthyS it2.family then it2 else { it2 with family := some family }

/-- The full per-item mutation of the admin item handler. -/
def adminApply (family : String) (body : ItemBody) (it : Item) : Item :=
  adminFinish family (adminApplyFields body it)

/-- `PUT /api/admin/item/:id`. -/
def adminUpdateItem (disk : Store) (idNum : Int) (qFamily : Option String)
    (body : ItemBody) : ApiResult × Store :=
  if idNum = 0 then ({ success := false, message := "Invalid id", status := 400 }, disk)
  else
    let data := normalizeStore disk
    let family := reqFamily qFamily body.family
    match data.items.find? (adminPred idNum family) with
    | none => ({ success := false, message := "Item not found", status := 404 }, disk)
    | some _ =>
      ({ success := true, message := "", status := 200 },
       { data with items := updateFirst (adminPred idNum family) (adminApply family body) data.items })

/-! ## Person handlers -/

/-- The update body of `PUT /api/admin/person/:code`. -/
structure PersonBody where
  name : Option String
  preferences : Option String
  family : Option String
deriving DecidableEq

/-- The person lookup: `String(p.code) === String(code) && family matches`. -/
def personPred (code : String) (family : String) (p : Person) : Bool :=
  p.code == code && famOfP p == family

/-- The per-person mutation of the person update handler. -/
def personApply (lookupFamily : String) (body : PersonBody) (p : Person) : Person :=
  let p1 := { p with
    name := match body.name with
      | some v => v
      | none => p.name
    preferences := match body.preferences with
      | some v => v
      | none => p.preferences }
  match body.family with
  | some v => { p1 with family := some (newFamVal v) }
  | none =>
    if truthyS p1.family then p1
    else { p1 with family := some (jsOrStr (some lookupFamily) "default") }

/-- `PUT /api/admin/person/:code`. -/
def updatePersonEndpoint (disk : Store) (code : String) (qFamily : Option String)
    (body : PersonBody) : ApiResult × Store :=
  if code = "" then ({ success := false, message := "Missing person code", status := 400 }, disk)
  else
    let data := normalizeStore disk
    let lookupFamily := reqFamily qFamily body.family
    match data.people.find? (personPred code lookupFamily) with
    | none => ({ success := false, message := "Person not found", status := 404 }, disk)
    | some _ =>
      ({ success := true, message := "", status := 200 },
       { data with
         people := updateFirst (personPred code lookupFamily) (personApply lookupFamily body)
           data.people })

/-- `POST /api/admin/person`. -/
def createPersonEndpoint (disk : Store) (codeIn nameIn preferences : String)
    (bodyFamily qFamily : Option String) : ApiResult × Store :=
  let code := jsTrim codeIn
  let name := jsTrim nameIn
  let family := reqFamily bodyFamily qFamily
  if code = "" then ({ success := false, message := "Missing code", status := 400 }, disk)
  else
    let data := normalizeStore disk
    if (data.people.find? (fun p => jsToLower p.code == jsToLower code)).isSome then
      ({ success := false, message := "Person with this code already exists", status := 409 },
       disk)
    else
      let person : Person :=
        { code := code, name := name, preferences := preferences, family := some family }
      ({ success := true, message := "", status := 200 },
       { data with people := data.people ++ [person] })

/-- `DELETE /api/admin/person/:code`. -/
def deletePersonEndpoint (disk : Store) (code : String) (qFamily : Option String) :
    ApiResult × Store :=
  if code = "" then ({ success := false, message := "Missing code", status := 400 }, disk)
  else
    let data := normalizeStore disk
    let family := reqFamily qFamily none
    if (data.people.find? (personPred code family)).isSome then
      ({ success := true, message := "", status := 200 },
       { people := removeFirst (personPred code family) data.people
         items := data.items.filter
           (fun it => !(it.recipientCode == code && famOf it == family)) })
    else ({ success := false, message := "Person not found", status := 404 }, disk)

/-! ## Generic list lemmas -/

theorem updateFirst_of_find?_eq {α} {p : α → Bool} {f : α → α} :
    ∀ {l : List α} {x : α}, l.find? p = some x → f x = x → updateFirst p f l = l := by
  intro l
  induction l with
  | nil => intro x h; simp [List.find?] at h
  | cons a t ih =>
    intro x h hfx
    by_cases hpa : p a
    · simp [List.find?, hpa] at h
      subst h
      simp [updateFirst, hpa, hfx]
    · simp [List.find?, hpa] at h
      simp [updateFirst, hpa, ih h hfx]

theorem map_updateFirst {α β} (g : α → β) (p : α → Bool) (f : α → α)
    (h : ∀ x, g (f x) = g x) : ∀ l : List α, (updateFirst p f l).map g = l.map g := by
  intro l
  induction l with
  | nil => rfl
  | cons a t ih =>
    by_cases hpa : p a
    · simp [updateFirst, hpa, h]
    · simp [updateFirst, hpa, ih]

theorem updateFirst_forall {α} {q : α → Prop} {p : α → Bool} {f : α → α}
    (hf : ∀ x, q x → q (f x)) :
    ∀ {l : List α}, (∀ x ∈ l, q x) → ∀ y ∈ updateFirst p f l, q y := by
  intro l
  induction l with
  | nil => intro _ y hy; simp [updateFirst] at hy
  | cons a t ih =>
    intro hall y hy
    by_cases hpa : p a
    · simp only [updateFirst, if_pos hpa, List.mem_cons] at hy
      rcases hy with rfl | hy
      · exact hf a (hall a (by simp))
      · exact hall y (by simp [hy])
    · simp only [updateFirst, if_neg hpa, List.mem_cons] at hy
      rcases hy with rfl | hy
      · exact hall _ (by simp)
      · exact ih (fun x hx => hall x (by simp [hx])) y hy

theorem removeFirst_sublist {α} (p : α → Bool) :
    ∀ l : List α, List.Sublist (removeFirst p l) l := by
  intro l
  induction l with
  | nil => simp [removeFirst]
  | cons a t ih =>
    by_cases hpa : p a
    · rw [removeFirst, if_pos hpa]
      exact List.sublist_cons_self a t
    · rw [removeFirst, if_neg hpa]
      exact List.Sublist.cons₂ a ih

theorem mem_removeFirst_of_not {α} {p : α → Bool} :
    ∀ {l : List α} {x : α}, x ∈ l → p x = false → x ∈ removeFirst p l := by
  intro l
  induction l with
  | nil => intro x hx; simp at hx
  | cons a t ih =>
    intro x hx hpx
    by_cases hpa : p a
    · rcases List.mem_cons.mp hx with rfl | hx
      · rw [hpx] at hpa; cases hpa
      · simpa [removeFirst, hpa] using hx
    · rcases List.mem_cons.mp hx with rfl | hx
      · simp [removeFirst, hpa]
      · simp [removeFirst, hpa, ih hx hpx]

/-! ## Facts about the normalization -/

/-- The shape `loadData` guarantees for every item after normalization. -/
def itemNormalized (it : Item) : Prop :=
  truthyN it.id = true ∧ it.details.isSome = true ∧ it.tags.isSome = true ∧
    truthyS it.family = true

theorem normIdStep_self {m : Int} {it : Item} (h : truthyN it.id = true) :
    normIdStep m it = (m, it) := by
  simp [normIdStep, h]

theorem normDetailsStep_self {it : Item} (h : it.details.isSome = true) :
    normDetailsStep it = it := by
  simp [normDetailsStep, h]

theorem normTagsStep_self {it : Item} (h : it.tags.isSome = true) :
    normTagsStep it = it := by
  cases htags : it.tags with
  | some l => simp [normTagsStep, htags]
  | none => rw [htags] at h; simp at h

theorem normFamilyStep_self {it : Item} (h : truthyS it.family = true) :
    normFamilyStep it = it := by
  simp [normFamilyStep, h]

theorem normItem_self {m : Int} {it : Item} (h : itemNormalized it) :
    normItem m it = (m, it) := by
  obtain ⟨h1, h2, h3, h4⟩ := h
  simp [normItem, normIdStep_self h1, normDetailsStep_self h2, normTagsStep_self h3,
    normFamilyStep_self h4]

theorem normIdStep_id_truthy {m : Int} {it : Item} (hm : 0 ≤ m) :
    truthyN (normIdStep m it).2.id = true := by
  unfold normIdStep
  split
  · assumption
  · split
    · rename_i n heq
      split
      · rename_i hne
        show truthyN (some n) = true
        exact hne
      · show truthyN (some (m + 1)) = true
        simp [truthyN]
        omega
    · show truthyN (some (m + 1)) = true
      simp [truthyN]
      omega

theorem normIdStep_fst_nonneg {m : Int} {it : Item} (hm : 0 ≤ m) :
    0 ≤ (normIdStep m it).1 := by
  unfold normIdStep
  split
  · exact hm
  · split
    · rename_i n heq
      split
      · show 0 ≤ if n > m then n else m
        split <;> omega
      · show 0 ≤ m + 1
        omega
    · show 0 ≤ m + 1
      omega

theorem normIdStep_details {m : Int} (it : Item) :
    (normIdStep m it).2.details = it.details := by
  unfold normIdStep
  split
  · rfl
  · split
    · split <;> rfl
    · rfl

theorem normIdStep_tags {m : Int} (it : Item) : (normIdStep m it).2.tags = it.tags := by
  unfold normIdStep
  split
  · rfl
  · split
    · split <;> rfl
    · rfl

theorem normIdStep_family {m : Int} (it : Item) : (normIdStep m it).2.family = it.family := by
  unfold normIdStep
  split
  · rfl
  · split
    · split <;> rfl
    · rfl

theorem normDetailsStep_id (it : Item) : (normDetailsStep it).id = it.id := by
  unfold normDetailsStep; split <;> rfl

theorem normDetailsStep_tags (it : Item) : (normDetailsStep it).tags = it.tags := by
  unfold normDetailsStep; split <;> rfl

theorem normDetailsStep_family (it : Item) : (normDetailsStep it).family = it.family := by
  unfold normDetailsStep; split <;> rfl

theorem normDetailsStep_isSome (it : Item) : (normDetailsStep it).details.isSome = true := by
  unfold normDetailsStep
  split
  · assumption
  · rfl

theorem normTagsStep_id (it : Item) : (normTagsStep it).id = it.id := by
  unfold normTagsStep; split <;> rfl

theorem normTagsStep_details (it : Item) : (normTagsStep it).details = it.details := by
  unfold normTagsStep; split <;> rfl

theorem normTagsStep_family (it : Item) : (normTagsStep it).family = it.family := by
  unfold normTagsStep; split <;> rfl

theorem normTagsStep_isSome (it : Item) : (normTagsStep it).tags.isSome = true := by
  unfold normTagsStep
  split
  · rename_i l heq; rw [heq]; rfl
  · rfl

theorem normFamilyStep_id (it : Item) : (normFamilyStep it).id = it.id := by
  unfold normFamilyStep; split <;> rfl

theorem normFamilyStep_details (it : Item) : (normFamilyStep it).details = it.details := by
  unfold normFamilyStep; split <;> rfl

theorem normFamilyStep_tags (it : Item) : (normFamilyStep it).tags = it.tags := by
  unfold normFamilyStep; split <;> rfl

theorem normFamilyStep_truthy (it : Item) : truthyS (normFamilyStep it).family = true := by
  unfold normFamilyStep
  split
  · assumption
  · rfl

theorem normItem_normalized {m : Int} (it : Item) (hm : 0 ≤ m) :
    itemNormalized (normItem m it).2 := by
  refine ⟨?_, ?_, ?_, ?_⟩
  · show truthyN (normFamilyStep (normTagsStep (normDetailsStep (normIdStep m it).2))).id = true
    rw [normFamilyStep_id, normTagsStep_id, normDetailsStep_id]
    exact normIdStep_id_truthy hm
  · show (normFamilyStep (normTagsStep (normDetailsStep (normIdStep m it).2))).details.isSome = true
    rw [normFamilyStep_details, normTagsStep_details]
    exact normDetailsStep_isSome _
  · show (normFamilyStep (normTagsStep (normDetailsStep (normIdStep m it).2))).tags.isSome = true
    rw [normFamilyStep_tags]
    exact normTagsStep_isSome _
  · exact normFamilyStep_truthy _

theorem normItem_fst_nonneg {m : Int} (it : Item) (hm : 0 ≤ m) : 0 ≤ (normItem m it).1 :=
  normIdStep_fst_nonneg hm

theorem normItemsGo_normalized {m : Int} (hm : 0 ≤ m) :
    ∀ l : List Item, ∀ y ∈ normItemsGo m l, itemNormalized y := by
  intro l
  induction l generalizing m with
  | nil => intro y hy; simp [normItemsGo] at hy
  | cons a t ih =>
    intro y hy
    simp only [normItemsGo, List.mem_cons] at hy
    rcases hy with rfl | hy
    · exact normItem_normalized a hm
    · exact ih (normItem_fst_nonneg a hm) y hy

theorem normItemsGo_self {l : List Item} (h : ∀ x ∈ l, itemNormalized x) (m : Int) :
    normItemsGo m l = l := by
  induction l generalizing m with
  | nil => rfl
  | cons a t ih =>
    have ha := h a (by simp)
    simp only [normItemsGo, normItem_self ha]
    exact congrArg _ (ih (fun x hx => h x (by simp [hx])) m)

theorem maxStep_le {m : Int} {it : Item} : m ≤ maxStep m it :=
  le_trans (le_max_left m (numOrZero it.id)) (le_max_left _ _)

theorem le_foldl_maxStep : ∀ (l : List Item) (b : Int), b ≤ l.foldl maxStep b := by
  intro l
  induction l with
  | nil => intro b; simp
  | cons a t ih => intro b; exact le_trans maxStep_le (ih (maxStep b a))

theorem storeMaxId_nonneg (items : List Item) : 0 ≤ storeMaxId items :=
  le_foldl_maxStep items 0

theorem foldl_maxStep_ge_mem :
    ∀ (l : List Item) (b : Int) (it : Item), it ∈ l → numOrZero it.id ≤ l.foldl maxStep b := by
  intro l
  induction l with
  | nil => intro b it hit; simp at hit
  | cons a t ih =>
    intro b it hit
    rcases List.mem_cons.mp hit with rfl | hit
    · exact le_trans (le_trans (le_max_right b (numOrZero it.id)) (le_max_left _ _))
        (le_foldl_maxStep t (maxStep b it))
    · exact ih (maxStep b a) it hit

theorem storeMaxId_ge_mem {items : List Item} {it : Item} (h : it ∈ items) :
    numOrZero it.id ≤ storeMaxId items :=
  foldl_maxStep_ge_mem items 0 it h

theorem normPerson_self {p : Person} (h : truthyS p.family = true) : normPerson p = p := by
  simp [normPerson, h]

theorem normPerson_truthy (p : Person) : truthyS (normPerson p).family = true := by
  unfold normPerson
  split
  · assumption
  · rfl

/-- Every store produced by the normalization has only normalized items and
people with a truthy family. -/
theorem normalizeStore_normalized (s : Store) :
    (∀ it ∈ (normalizeStore s).items, itemNormalized it) ∧
      (∀ p ∈ (normalizeStore s).people, truthyS p.family = true) := by
  constructor
  · exact normItemsGo_normalized (storeMaxId_nonneg s.items) s.items
  · intro p hp
    simp only [normalizeStore, List.mem_map] at hp
    obtain ⟨q, _, rfl⟩ := hp
    exact normPerson_truthy q

/-- A store fixed by the normalization has only normalized items. -/
theorem items_normalized_of_fixed {s : Store} (hn : normalizeStore s = s) :
    ∀ it ∈ s.items, itemNormalized it := by
  intro it hit
  have h := (normalizeStore_normalized s).1
  rw [hn] at h
  exact h it hit

/-- C5: the normalization `loadData` performs on every load is idempotent —
normalizing an already-normalized store is a no-op. -/
theorem c5_normalize_idempotent (s : Store) :
    normalizeStore (normalizeStore s) = normalizeStore s := by
  have hitems := (normalizeStore_normalized s).1
  refine congrArg₂ Store.mk ?_ ?_
  · show ((normalizeStore s).people).map normPerson = (normalizeStore s).people
    have : ∀ p ∈ (normalizeStore s).people, normPerson p = p := by
      intro p hp
      exact normPerson_self ((normalizeStore_normalized s).2 p hp)
    calc ((normalizeStore s).people).map normPerson
        = ((normalizeStore s).people).map id := List.map_congr_left this
      _ = (normalizeStore s).people := List.map_id _
  · exact normItemsGo_self hitems _

/-! ## Case analysis of the claim / unclaim endpoints -/

theorem claimEndpoint_not_found {s : Store} (hn : normalizeStore s = s) {v : String}
    {i : Int} {bf qf : Option String}
    (hfind : s.items.find? (itemPred i (reqFamily bf qf)) = none) :
    claimEndpoint s v i bf qf =
      ({ success := false, message := "Item not found.", status := 200 }, s) := by
  simp only [claimEndpoint, hn, hfind]

theorem claimEndpoint_other {s : Store} (hn : normalizeStore s = s) {v : String}
    {i : Int} {bf qf : Option String} {it : Item}
    (hfind : s.items.find? (itemPred i (reqFamily bf qf)) = some it)
    (h1 : truthyS it.claimedByCode = true) (h2 : it.claimedByCode ≠ some v) :
    claimEndpoint s v i bf qf =
      ({ success := false, message := "This item was already claimed.", status := 200 }, s) := by
  have hg : (truthyS it.claimedByCode && it.claimedByCode != some v) = true := by
    simp [h1, bne_iff_ne, h2]
  simp only [claimEndpoint, hn, hfind, hg, if_true]

theorem claimEndpoint_ok {s : Store} (hn : normalizeStore s = s) {v : String}
    {i : Int} {bf qf : Option String} {it : Item}
    (hfind : s.items.find? (itemPred i (reqFamily bf qf)) = some it)
    (h : truthyS it.claimedByCode = false ∨ it.claimedByCode = some v) :
    claimEndpoint s v i bf qf =
      ({ success := true, message := "", status := 200 },
       { s with
         items := updateFirst (itemPred i (reqFamily bf qf)) (setClaim (some v)) s.items }) := by
  have hg : (truthyS it.claimedByCode && it.claimedByCode != some v) = false := by
    rcases h with h | h
    · simp [h]
    · simp [h]
  simp only [claimEndpoint, hn, hfind, hg, Bool.false_eq_true, if_false]

theorem claimEndpoint_store_cases (s : Store) (hn : normalizeStore s = s) (v : String)
    (i : Int) (bf qf : Option String) :
    (claimEndpoint s v i bf qf).2 = s ∨
      (claimEndpoint s v i bf qf).2 =
        { s with
          items := updateFirst (itemPred i (reqFamily bf qf)) (setClaim (some v)) s.items } := by
  cases hfind : s.items.find? (itemPred i (reqFamily bf qf)) with
  | none => rw [claimEndpoint_not_found hn hfind]; left; rfl
  | some it =>
    by_cases h1 : truthyS it.claimedByCode = true
    · by_cases h2 : it.claimedByCode = some v
      · rw [claimEndpoint_ok hn hfind (Or.inr h2)]; right; rfl
      · rw [claimEndpoint_other hn hfind h1 h2]; left; rfl
    · rw [claimEndpoint_ok hn hfind (Or.inl (by simpa using h1))]; right; rfl

theorem unclaimEndpoint_not_found {s : Store} (hn : normalizeStore s = s) {v : String}
    {i : Int} {bf qf : Option String}
    (hfind : s.items.find? (itemPred i (reqFamily bf qf)) = none) :
    unclaimEndpoint s v i bf qf =
      ({ success := false, message := "Item not found.", status := 200 }, s) := by
  simp only [unclaimEndpoint, hn, hfind]

theorem unclaimEndpoint_other {s : Store} (hn : normalizeStore s = s) {v : String}
    {i : Int} {bf qf : Option String} {it : Item}
    (hfind : s.items.find? (itemPred i (reqFamily bf qf)) = some it)
    (h : it.claimedByCode ≠ some v) :
    unclaimEndpoint s v i bf qf =
      ({ success := false, message := "You can only unclaim items you claimed.",
         status := 200 }, s) := by
  have hg : (it.claimedByCode != some v) = true := by simp [bne_iff_ne, h]
  simp only [unclaimEndpoint, hn, hfind, hg, if_true]

theorem unclaimEndpoint_ok {s : Store} (hn : normalizeStore s = s) {v : String}
    {i : Int} {bf qf : Option String} {it : Item}
    (hfind : s.items.find? (itemPred i (reqFamily bf qf)) = some it)
    (h : it.claimedByCode = some v) :
    unclaimEndpoint s v i bf qf =
      ({ success := true, message := "", status := 200 },
       { s with
         items := updateFirst (itemPred i (reqFamily bf qf)) (setClaim none) s.items }) := by
  have hg : (it.claimedByCode != some v) = false := by simp [h]
  simp only [unclaimEndpoint, hn, hfind, hg, Bool.false_eq_true, if_false]

theorem unclaimEndpoint_store_cases (s : Store) (hn : normalizeStore s = s) (v : String)
    (i : Int) (bf qf : Option String) :
    (unclaimEndpoint s v i bf qf).2 = s ∨
      (unclaimEndpoint s v i bf qf).2 =
        { s with
          items := updateFirst (itemPred i (reqFamily bf qf)) (setClaim none) s.items } := by
  cases hfind : s.items.find? (itemPred i (reqFamily bf qf)) with
  | none => rw [unclaimEndpoint_not_found hn hfind]; left; rfl
  | some it =>
    by_cases h : it.claimedByCode = some v
    · rw [unclaimEndpoint_ok hn hfind h]; right; rfl
    · rw [unclaimEndpoint_other hn hfind h]; left; rfl

/-! ## Concrete stores used by counterexamples and witnesses -/

/-- A fully-normalized, fully-synced unclaimed item with id 1. -/
def itemA : Item :=
  { id := some 1, itemId := some 1, recipientCode := "LAUREN", recipientName := "Lauren",
    itemName := "Bike", details := some "", notes := some "", url := "",
    tags := some [], tag := some "", claimedByCode := none, family := some "default" }

/-- A store holding only `itemA`. -/
def storeA : Store := { people := [], items := [itemA] }

/-- A store whose single item is claimed by the empty-string code. -/
def storeEmptyClaim : Store :=
  { people := [], items := [{ itemA with claimedByCode := some "" }] }

/-- A store whose single item is claimed by viewer `"W"`. -/
def storeClaimedW : Store :=
  { people := [], items := [{ itemA with claimedByCode := some "W" }] }

/-! ## C1: POST /claim -/

/-- The corrected behavior of `POST /claim` on an already-loaded store:
not-found and claimed-by-another-viewer fail without a write, everything
else (unclaimed, claimed by the empty string, or already claimed by the
same viewer) succeeds and stores `viewerCode`; a re-claim by the same
viewer leaves the store unchanged. -/
def claimSpecHolds (s : Store) (v : String) (i : Int) (bf qf : Option String) : Prop :=
  (s.items.find? (itemPred i (reqFamily bf qf)) = none →
    claimEndpoint s v i bf qf =
      ({ success := false, message := "Item not found.", status := 200 }, s)) ∧
  (∀ it, s.items.find? (itemPred i (reqFamily bf qf)) = some it →
    ((truthyS it.claimedByCode = true → it.claimedByCode ≠ some v →
      claimEndpoint s v i bf qf =
        ({ success := false, message := "This item was already claimed.", status := 200 }, s)) ∧
     ((truthyS it.claimedByCode = false ∨ it.claimedByCode = some v) →
      claimEndpoint s v i bf qf =
        ({ success := true, message := "", status := 200 },
         { s with
           items := updateFirst (itemPred i (reqFamily bf qf)) (setClaim (some v)) s.items })) ∧
     (it.claimedByCode = some v → (claimEndpoint s v i bf qf).2 = s)))

/-- C1 (amended): the claim endpoint behaves as described by
`claimSpecHolds` on every store that the load-time normalization fixes.
The amendment relative to the original claim: an item whose
`claimedByCode` is the empty string is treated as unclaimed (JavaScript
truthiness), so claiming it by any viewer succeeds and overwrites it
rather than failing. -/
theorem c1_claim_amended (s : Store) (hn : normalizeStore s = s) (v : String) (i : Int)
    (bf qf : Option String) : claimSpecHolds s v i bf qf := by
  refine ⟨fun hfind => claimEndpoint_not_found hn hfind, fun it hfind => ⟨?_, ?_, ?_⟩⟩
  · intro h1 h2
    exact claimEndpoint_other hn hfind h1 h2
  · intro h
    exact claimEndpoint_ok hn hfind h
  · intro h
    rw [claimEndpoint_ok hn hfind (Or.inr h)]
    show Store.mk s.people (updateFirst (itemPred i (reqFamily bf qf)) (setClaim (some v)) s.items) = s
    have hitems : updateFirst (itemPred i (reqFamily bf qf)) (setClaim (some v)) s.items = s.items :=
      updateFirst_of_find?_eq hfind (by rw [setClaim, ← h])
    rw [hitems]

/-- Counterexample to C1 as stated: the store contains an item with id 1 in
family "default" whose `claimedByCode` is the non-null code `""`, different
from viewer `"V"`; the claim states the call must fail with an
already-claimed message and leave `claimedByCode` unchanged, but the call
succeeds and overwrites `claimedByCode` with `"V"`. -/
theorem c1_counterexample :
    (claimEndpoint storeEmptyClaim "V" 1 none none).1.success = true ∧
      (claimEndpoint storeEmptyClaim "V" 1 none none).2.items =
        [{ itemA with claimedByCode := some "V" }] := by
  constructor <;> decide

/-- Witness for C1: the hypotheses of `c1_claim_amended` hold at `storeA`
and the conclusion is delivered by the theorem itself. -/
theorem c1_witness :
    normalizeStore storeA = storeA ∧ claimSpecHolds storeA "V" 1 none none :=
  ⟨by decide, c1_claim_amended storeA (by decide) "V" 1 none none⟩

/-! ## C2: POST /unclaim -/

/-- The corrected behavior of `POST /unclaim`: success exactly when the
item exists and is claimed by the calling viewer (then `claimedByCode`
becomes `null`); a found item claimed otherwise fails with the permission
message; a missing item fails with the not-found message; both failures
leave the store untouched. -/
def unclaimSpecHolds (s : Store) (v : String) (i : Int) (bf qf : Option String) : Prop :=
  (s.items.find? (itemPred i (reqFamily bf qf)) = none →
    unclaimEndpoint s v i bf qf =
      ({ success := false, message := "Item not found.", status := 200 }, s)) ∧
  (∀ it, s.items.find? (itemPred i (reqFamily bf qf)) = some it →
    ((it.claimedByCode = some v →
      unclaimEndpoint s v i bf qf =
        ({ success := true, message := "", status := 200 },
         { s with items := updateFirst (itemPred i (reqFamily bf qf)) (setClaim none) s.items })) ∧
     (it.claimedByCode ≠ some v →
      unclaimEndpoint s v i bf qf =
        ({ success := false, message := "You can only unclaim items you claimed.",
           status := 200 }, s))))

/-- C2 (amended): the unclaim endpoint succeeds if and only if the item
exists and is claimed by exactly the calling viewer.  The amendment
relative to the original claim: when no matching item exists the failure
message is the not-found message, not the permission message; the
permission message is used only when the item exists but is claimed by
someone else (or not claimed at all). -/
theorem c2_unclaim_amended (s : Store) (hn : normalizeStore s = s) (v : String) (i : Int)
    (bf qf : Option String) : unclaimSpecHolds s v i bf qf := by
  refine ⟨fun hfind => unclaimEndpoint_not_found hn hfind, fun it hfind => ⟨?_, ?_⟩⟩
  · intro h
    exact unclaimEndpoint_ok hn hfind h
  · intro h
    exact unclaimEndpoint_other hn hfind h

/-- Counterexample to C2 as stated: on a store with no matching item the
claim requires a failure with the permission message, but the endpoint
fails with the not-found message instead. -/
theorem c2_counterexample :
    (unclaimEndpoint storeA "V" 2 none none).1.success = false ∧
      (unclaimEndpoint storeA "V" 2 none none).1.message ≠
        "You can only unclaim items you claimed." ∧
      (unclaimEndpoint storeA "V" 2 none none).1.message = "Item not found." := by
  refine ⟨by decide, by decide, by decide⟩

/-- Witness for C2: the hypotheses of `c2_unclaim_amended` hold at
`storeClaimedW` and the conclusion is delivered by the theorem itself. -/
theorem c2_witness :
    normalizeStore storeClaimedW = storeClaimedW ∧ unclaimSpecHolds storeClaimedW "W" 1 none none :=
  ⟨by decide, c2_unclaim_amended storeClaimedW (by decide) "W" 1 none none⟩

/-! ## C10: the claim handler never consults the people list -/

theorem claimEndpoint_people_indep {s : Store} (hn : normalizeStore s = s)
    (P : List Person) (v : String) (i : Int) (bf qf : Option String) :
    (claimEndpoint (Store.mk P s.items) v i bf qf).1 = (claimEndpoint s v i bf qf).1 ∧
      (claimEndpoint (Store.mk P s.items) v i bf qf).2.items =
        (claimEndpoint s v i bf qf).2.items := by
  have hP : (normalizeStore (Store.mk P s.items)).items = s.items := by
    show normItemsGo (storeMaxId s.items) s.items = s.items
    exact congrArg Store.items hn
  cases hfind : s.items.find? (itemPred i (reqFamily bf qf)) with
  | none =>
    rw [claimEndpoint_not_found hn hfind]
    simp only [claimEndpoint, hP, hfind]
    constructor <;> trivial
  | some it =>
    by_cases h1 : truthyS it.claimedByCode = true
    · by_cases h2 : it.claimedByCode = some v
      · have hg : (truthyS it.claimedByCode && it.claimedByCode != some v) = false := by
          simp [h2]
        rw [claimEndpoint_ok hn hfind (Or.inr h2)]
        simp only [claimEndpoint, hP, hfind, hg, Bool.false_eq_true, if_false]
        constructor <;> trivial
      · have hg : (truthyS it.claimedByCode && it.claimedByCode != some v) = true := by
          simp [h1, bne_iff_ne, h2]
        rw [claimEndpoint_other hn hfind h1 h2]
        simp only [claimEndpoint, hP, hfind, hg, if_true]
        constructor <;> trivial
    · have h1' : truthyS it.claimedByCode = false := by simpa using h1
      have hg : (truthyS it.claimedByCode && it.claimedByCode != some v) = false := by
        simp [h1']
      rw [claimEndpoint_ok hn hfind (Or.inl h1')]
      simp only [claimEndpoint, hP, hfind, hg, Bool.false_eq_true, if_false]
      constructor <;> trivial

/-- C10 property: claiming an unclaimed matching item succeeds for every
viewer code and stores it, and the response together with the persisted
items is invariant under replacing the people list by anything — the
handler never checks `viewerCode` against the people. -/
def claimIgnoresPeople (s : Store) (v : String) (i : Int) (bf qf : Option String) : Prop :=
  (∀ it, s.items.find? (itemPred i (reqFamily bf qf)) = some it → it.claimedByCode = none →
    (claimEndpoint s v i bf qf).1.success = true ∧
      (claimEndpoint s v i bf qf).2.items =
        updateFirst (itemPred i (reqFamily bf qf)) (setClaim (some v)) s.items) ∧
  (∀ P : List Person,
    (claimEndpoint (Store.mk P s.items) v i bf qf).1 = (claimEndpoint s v i bf qf).1 ∧
      (claimEndpoint (Store.mk P s.items) v i bf qf).2.items =
        (claimEndpoint s v i bf qf).2.items)

/-- C10: `POST /claim` never checks `viewerCode` against the people list —
any viewer code, including one belonging to no person, claims an unclaimed
item and is stored verbatim, and the outcome does not depend on the people
list at all. -/
theorem c10_claim_ignores_people (s : Store) (hn : normalizeStore s = s) (v : String)
    (i : Int) (bf qf : Option String) : claimIgnoresPeople s v i bf qf := by
  constructor
  · intro it hfind hnone
    have h1 : truthyS it.claimedByCode = false := by rw [hnone]; rfl
    rw [claimEndpoint_ok hn hfind (Or.inl h1)]
    exact ⟨rfl, rfl⟩
  · intro P
    exact claimEndpoint_people_indep hn P v i bf qf

/-- Witness for C10 at a store whose people list is empty, with a viewer
code that belongs to no person. -/
theorem c10_witness :
    normalizeStore storeA = storeA ∧ claimIgnoresPeople storeA "NOBODY" 1 none none :=
  ⟨by decide, c10_claim_ignores_people storeA (by decide) "NOBODY" 1 none none⟩

/-! ## C7: POST /admin/person -/

theorem createPerson_missing {s : Store} {codeIn nameIn prefs : String}
    {bf qf : Option String} (h : jsTrim codeIn = "") :
    createPersonEndpoint s codeIn nameIn prefs bf qf =
      ({ success := false, message := "Missing code", status := 400 }, s) := by
  simp only [createPersonEndpoint, h, if_true]

theorem createPerson_conflict {s : Store} (hn : normalizeStore s = s)
    {codeIn nameIn prefs : String} {bf qf : Option String} (h : jsTrim codeIn ≠ "")
    (hex : (s.people.find? (fun p => jsToLower p.code == jsToLower (jsTrim codeIn))).isSome = true) :
    createPersonEndpoint s codeIn nameIn prefs bf qf =
      ({ success := false, message := "Person with this code already exists", status := 409 },
       s) := by
  simp only [createPersonEndpoint, hn, if_neg h, hex, if_true]

theorem createPerson_ok {s : Store} (hn : normalizeStore s = s)
    {codeIn nameIn prefs : String} {bf qf : Option String} (h : jsTrim codeIn ≠ "")
    (hno : (s.people.find? (fun p => jsToLower p.code == jsToLower (jsTrim codeIn))).isSome = false) :
    createPersonEndpoint s codeIn nameIn prefs bf qf =
      ({ success := true, message := "", status := 200 },
       { s with people := s.people ++
           [{ code := jsTrim codeIn, name := jsTrim nameIn, preferences := prefs,
              family := some (reqFamily bf qf) }] }) := by
  simp only [createPersonEndpoint, hn, if_neg h, hno, Bool.false_eq_true, if_false]

/-- C7 property: person creation rejects a missing (blank) code with 400,
rejects a code that case-insensitively matches any existing person's code —
across the whole store, regardless of family — with 409, and otherwise
appends the new person. -/
def createPersonSpecHolds (s : Store) (codeIn nameIn prefs : String)
    (bf qf : Option String) : Prop :=
  (jsTrim codeIn = "" →
    createPersonEndpoint s codeIn nameIn prefs bf qf =
      ({ success := false, message := "Missing code", status := 400 }, s)) ∧
  (jsTrim codeIn ≠ "" → (∃ p ∈ s.people, jsToLower p.code = jsToLower (jsTrim codeIn)) →
    createPersonEndpoint s codeIn nameIn prefs bf qf =
      ({ success := false, message := "Person with this code already exists", status := 409 },
       s)) ∧
  (jsTrim codeIn ≠ "" → (∀ p ∈ s.people, jsToLower p.code ≠ jsToLower (jsTrim codeIn)) →
    createPersonEndpoint s codeIn nameIn prefs bf qf =
      ({ success := true, message := "", status := 200 },
       { s with people := s.people ++
           [{ code := jsTrim codeIn, name := jsTrim nameIn, preferences := prefs,
              family := some (reqFamily bf qf) }] }))

/-- C7: `POST /admin/person` fails with 409 exactly when some person
anywhere in the store has a case-insensitively equal code, with 400 when
the code is missing, and otherwise appends the person and succeeds. -/
theorem c7_person_create (s : Store) (hn : normalizeStore s = s)
    (codeIn nameIn prefs : String) (bf qf : Option String) :
    createPersonSpecHolds s codeIn nameIn prefs bf qf := by
  refine ⟨fun h => createPerson_missing h, fun h hex => ?_, fun h hall => ?_⟩
  · obtain ⟨p, hp, hpe⟩ := hex
    have hs : (s.people.find? (fun q => jsToLower q.code == jsToLower (jsTrim codeIn))).isSome = true := by
      rw [List.find?_isSome]
      exact ⟨p, hp, by simp [hpe]⟩
    exact createPerson_conflict hn h hs
  · have hs : (s.people.find? (fun q => jsToLower q.code == jsToLower (jsTrim codeIn))).isSome = false := by
      rw [Bool.eq_false_iff]
      intro hsome
      rw [List.find?_isSome] at hsome
      obtain ⟨p, hp, hpe⟩ := hsome
      exact hall p hp (by simpa using hpe)
    exact createPerson_ok hn h hs

/-- A one-person store used by the person-endpoint witnesses. -/
def personL : Person :=
  { code := "LAUREN", name := "Lauren", preferences := "", family := some "default" }

/-- A normalized store with one person and one item. -/
def storeP : Store := { people := [personL], items := [itemA] }

/-- Witness for C7: creating `"lauren"` in a store holding `"LAUREN"` hits
the case-insensitive conflict. -/
theorem c7_witness :
    normalizeStore storeP = storeP ∧ createPersonSpecHolds storeP "lauren" "L" "" none none :=
  ⟨by decide, c7_person_create storeP (by decide) "lauren" "L" "" none none⟩

/-! ## C8: DELETE /admin/person/:code -/

theorem deletePerson_ok {s : Store} (hn : normalizeStore s = s) {code : String}
    {qf : Option String} (hc : code ≠ "")
    (hfind : (s.people.find? (personPred code (reqFamily qf none))).isSome = true) :
    deletePersonEndpoint s code qf =
      ({ success := true, message := "", status := 200 },
       { people := removeFirst (personPred code (reqFamily qf none)) s.people,
         items := s.items.filter
           (fun it => !(it.recipientCode == code && famOf it == reqFamily qf none)) }) := by
  simp only [deletePersonEndpoint, hn, if_neg hc, hfind, if_true]

theorem deletePerson_fail_store {s : Store} (hn : normalizeStore s = s) {code : String}
    {qf : Option String}
    (h : code = "" ∨ (s.people.find? (personPred code (reqFamily qf none))).isSome = false) :
    (deletePersonEndpoint s code qf).2 = s := by
  rcases h with h | h
  · simp only [deletePersonEndpoint, h, if_true]
  · by_cases hc : code = ""
    · simp only [deletePersonEndpoint, hc, if_true]
    · simp only [deletePersonEndpoint, hn, if_neg hc, h, Bool.false_eq_true, if_false]

/-- C8 property: when a person with the given code exists in the given
family, deletion removes exactly that person and filters out exactly the
items with that recipient code in that family; all other people and items
— including identically-coded ones in other families — survive. -/
def deletePersonSpecHolds (s : Store) (code : String) (qf : Option String) : Prop :=
  (code ≠ "" → (s.people.find? (personPred code (reqFamily qf none))).isSome = true →
    deletePersonEndpoint s code qf =
      ({ success := true, message := "", status := 200 },
       { people := removeFirst (personPred code (reqFamily qf none)) s.people,
         items := s.items.filter
           (fun it => !(it.recipientCode == code && famOf it == reqFamily qf none)) })) ∧
  (∀ q ∈ s.people, personPred code (reqFamily qf none) q = false →
    q ∈ (deletePersonEndpoint s code qf).2.people) ∧
  (∀ it ∈ s.items, (it.recipientCode ≠ code ∨ famOf it ≠ reqFamily qf none) →
    it ∈ (deletePersonEndpoint s code qf).2.items) ∧
  (∀ it ∈ (deletePersonEndpoint s code qf).2.items, it ∈ s.items)

/-- C8: deleting a person removes exactly that person and exactly the items
with the same recipient code in the same family, leaving everything else —
in particular identically-coded people and items of other families —
untouched. -/
theorem c8_person_delete (s : Store) (hn : normalizeStore s = s) (code : String)
    (qf : Option String) : deletePersonSpecHolds s code qf := by
  by_cases hc : code = ""
  · have hst : (deletePersonEndpoint s code qf).2 = s := deletePerson_fail_store hn (Or.inl hc)
    refine ⟨fun h _ => absurd hc h, ?_, ?_, ?_⟩
    · intro q hq _; rw [hst]; exact hq
    · intro it hit _; rw [hst]; exact hit
    · intro it hit; rw [hst] at hit; exact hit
  · cases hf : (s.people.find? (personPred code (reqFamily qf none))).isSome with
    | false =>
      have hst : (deletePersonEndpoint s code qf).2 = s :=
        deletePerson_fail_store hn (Or.inr hf)
      refine ⟨?_, ?_, ?_, ?_⟩
      · intro _ h
        rw [h] at hf
        cases hf
      · intro q hq _; rw [hst]; exact hq
      · intro it hit _; rw [hst]; exact hit
      · intro it hit; rw [hst] at hit; exact hit
    | true =>
      have hok := deletePerson_ok hn hc hf
      refine ⟨fun _ _ => hok, ?_, ?_, ?_⟩
      · intro q hq hnq
        rw [hok]
        exact mem_removeFirst_of_not hq hnq
      · intro it hit hne
        rw [hok]
        refine List.mem_filter.mpr ⟨hit, ?_⟩
        rcases hne with hne | hne <;> simp [hne]
      · intro it hit
        rw [hok] at hit
        exact (List.mem_filter.mp hit).1

/-- Witness for C8 at the one-person store. -/
theorem c8_witness :
    normalizeStore storeP = storeP ∧ deletePersonSpecHolds storeP "LAUREN" none :=
  ⟨by decide, c8_person_delete storeP (by decide) "LAUREN" none⟩

/-! ## C9: PUT /admin/person/:code with a new family -/

theorem updatePerson_found {s : Store} (hn : normalizeStore s = s) {code : String}
    {qf : Option String} {body : PersonBody} {p : Person} (hc : code ≠ "")
    (hfind : s.people.find? (personPred code (reqFamily qf body.family)) = some p) :
    updatePersonEndpoint s code qf body =
      ({ success := true, message := "", status := 200 },
       { s with people := updateFirst (personPred code (reqFamily qf body.family)) (personApply (reqFamily qf body.family) body) s.people }) := by
  simp only [updatePersonEndpoint, hn, if_neg hc, hfind]

theorem personApply_code (lf : String) (body : PersonBody) (q : Person) :
    (personApply lf body q).code = q.code := by
  unfold personApply
  cases body.family with
  | some v => rfl
  | none => by_cases hf : truthyS q.family = true <;> simp [hf]

theorem personApply_family {v : String} (lf : String) {body : PersonBody}
    (hb : body.family = some v) (q : Person) :
    (personApply lf body q).family = some (newFamVal v) := by
  unfold personApply
  rw [hb]

/-- C9 property: a successful person update touches only the people list —
the items are bit-for-bit unchanged — and when the body carries a family
value the located person's family becomes the trimmed new value while the
person's code never changes. -/
def updatePersonFrameHolds (s : Store) (code : String) (qf : Option String)
    (body : PersonBody) : Prop :=
  (∀ p, s.people.find? (personPred code (reqFamily qf body.family)) = some p → code ≠ "" →
    (updatePersonEndpoint s code qf body).1.success = true ∧
      (updatePersonEndpoint s code qf body).2.items = s.items ∧
      (updatePersonEndpoint s code qf body).2.people =
        updateFirst (personPred code (reqFamily qf body.family))
          (personApply (reqFamily qf body.family) body) s.people) ∧
  (∀ q : Person, (personApply (reqFamily qf body.family) body q).code = q.code) ∧
  (∀ v, body.family = some v →
    ∀ q : Person, (personApply (reqFamily qf body.family) body q).family = some (newFamVal v))

/-- C9: `PUT /admin/person/:code` with a new family value rewrites only the
located person's record (its family becomes the new value, its code stays);
no item is modified, so items referencing the person keep their old family
and stop pairing with the person under family-scoped lookups. -/
theorem c9_person_family_update_frame (s : Store) (hn : normalizeStore s = s)
    (code : String) (qf : Option String) (body : PersonBody) :
    updatePersonFrameHolds s code qf body := by
  refine ⟨?_, fun q => personApply_code _ body q, fun v hv q => personApply_family _ hv q⟩
  intro p hfind hc
  rw [updatePerson_found hn hc hfind]
  exact ⟨rfl, rfl, rfl⟩

/-- Body that moves a person to family "Smith". -/
def bodyFamSmith : PersonBody := { name := none, preferences := none, family := some "Smith" }

/-- Witness for C9: moving `"LAUREN"` from "default" to "Smith". -/
theorem c9_witness :
    normalizeStore storeP = storeP ∧ updatePersonFrameHolds storeP "LAUREN" (some "default")
      bodyFamSmith :=
  ⟨by decide, c9_person_family_update_frame storeP (by decide) "LAUREN" (some "default")
    bodyFamSmith⟩

/-! ## Shape lemmas for the remaining write endpoints -/

theorem adminUpdateItem_invalid {s : Store} {i : Int} {qf : Option String}
    {body : ItemBody} (h0 : i = 0) :
    adminUpdateItem s i qf body =
      ({ success := false, message := "Invalid id", status := 400 }, s) := by
  simp only [adminUpdateItem, h0, if_true]

theorem adminUpdateItem_not_found {s : Store} (hn : normalizeStore s = s) {i : Int}
    {qf : Option String} {body : ItemBody} (h0 : i ≠ 0)
    (hfind : s.items.find? (adminPred i (reqFamily qf body.family)) = none) :
    adminUpdateItem s i qf body =
      ({ success := false, message := "Item not found", status := 404 }, s) := by
  simp only [adminUpdateItem, hn, if_neg h0, hfind]

theorem adminUpdateItem_found {s : Store} (hn : normalizeStore s = s) {i : Int}
    {qf : Option String} {body : ItemBody} {it : Item} (h0 : i ≠ 0)
    (hfind : s.items.find? (adminPred i (reqFamily qf body.family)) = some it) :
    adminUpdateItem s i qf body =
      ({ success := true, message := "", status := 200 },
       { s with items := updateFirst (adminPred i (reqFamily qf body.family)) (adminApply (reqFamily qf body.family) body) s.items }) := by
  simp only [adminUpdateItem, hn, if_neg h0, hfind]

theorem adminUpdateItem_store_cases (s : Store) (hn : normalizeStore s = s) (i : Int)
    (qf : Option String) (body : ItemBody) :
    (adminUpdateItem s i qf body).2 = s ∨
      (adminUpdateItem s i qf body).2 =
        { s with items := updateFirst (adminPred i (reqFamily qf body.family)) (adminApply (reqFamily qf body.family) body) s.items } := by
  by_cases h0 : i = 0
  · left; rw [adminUpdateItem_invalid h0]
  · cases hfind : s.items.find? (adminPred i (reqFamily qf body.family)) with
    | none => left; rw [adminUpdateItem_not_found hn h0 hfind]
    | some it => right; rw [adminUpdateItem_found hn h0 hfind]

theorem createPerson_items (s : Store) (hn : normalizeStore s = s) (c n pr : String)
    (bf qf : Option String) : (createPersonEndpoint s c n pr bf qf).2.items = s.items := by
  by_cases h : jsTrim c = ""
  · rw [createPerson_missing h]
  · cases hf : (s.people.find? (fun p => jsToLower p.code == jsToLower (jsTrim c))).isSome with
    | true => rw [createPerson_conflict hn h hf]
    | false => rw [createPerson_ok hn h hf]

theorem updatePerson_fail_store {s : Store} (hn : normalizeStore s = s) {code : String}
    {qf : Option String} {body : PersonBody}
    (h : code = "" ∨ s.people.find? (personPred code (reqFamily qf body.family)) = none) :
    (updatePersonEndpoint s code qf body).2 = s := by
  rcases h with h | h
  · simp only [updatePersonEndpoint, h, if_true]
  · by_cases hc : code = ""
    · simp only [updatePersonEndpoint, hc, if_true]
    · simp only [updatePersonEndpoint, hn, if_neg hc, h]

theorem updatePerson_items (s : Store) (hn : normalizeStore s = s) (code : String)
    (qf : Option String) (body : PersonBody) :
    (updatePersonEndpoint s code qf body).2.items = s.items := by
  by_cases hc : code = ""
  · rw [updatePerson_fail_store hn (Or.inl hc)]
  · cases hf : s.people.find? (personPred code (reqFamily qf body.family)) with
    | none => rw [updatePerson_fail_store hn (Or.inr hf)]
    | some p => rw [updatePerson_found hn hc hf]

theorem uploadCsvText_store_cases (s : Store) (hn : normalizeStore s = s) (csv : String)
    (bf : Option String) :
    (uploadCsvText s csv bf).2 = s ∨
      (uploadCsvText s csv bf).2 =
        { s with items := s.items ++ csvMapGo bf (storeMaxId s.items) (parseCsvText csv) } := by
  by_cases h0 : csv = ""
  · left; simp only [uploadCsvText, h0, if_true]
  · by_cases h1 : parseCsvText csv = []
    · left; simp only [uploadCsvText, if_neg h0, h1, if_true]
    · right; simp only [uploadCsvText, if_neg h0, if_neg h1, hn]

/-! ## C3: id uniqueness -/

theorem setClaim_id (v : Option String) (i : Item) : (setClaim v i).id = i.id := rfl

theorem adminApplyFields_id (body : ItemBody) (it : Item) :
    (adminApplyFields body it).id = it.id := rfl

theorem adminFinish_id (f : String) (it : Item) : (adminFinish f it).id = it.id := by
  unfold adminFinish
  by_cases hf : truthyS it.family = true <;> simp [hf]

theorem adminApply_id (f : String) (body : ItemBody) (it : Item) :
    (adminApply f body it).id = it.id := by
  rw [adminApply, adminFinish_id, adminApplyFields_id]

theorem mkCsvItem_fresh (bf : Option String) {m : Int} {r : List (String × String)}
    (h : truthyN (csvRecId r) = false) :
    (mkCsvItem bf m r).1 = m + 1 ∧ (mkCsvItem bf m r).2.id = some (m + 1) := by
  simp only [mkCsvItem, h, Bool.false_eq_true, if_false]
  constructor <;> trivial

/-- A row whose id cell is blank (absent id/itemid keys or a cell that
trims to the empty string) yields a falsy `Number`: JavaScript's
`Number('')` is `0`, so on blank cells the embedding and the source agree
exactly and the handler takes the fresh-id branch. -/
theorem csvRecId_falsy_of_blank {r : List (String × String)}
    (h : jsTrim (csvRecIdCell r) = "") : truthyN (csvRecId r) = false := by
  rw [csvRecId]
  simp [jsNum, h, truthyN]

theorem csvMapGo_ids_nodup (bf : Option String) :
    ∀ (recs : List (List (String × String))) (l : List Item) (m : Int),
      (∀ r ∈ recs, truthyN (csvRecId r) = false) →
      (∀ it ∈ l, numOrZero it.id ≤ m) →
      (l.map Item.id).Nodup →
      ((l ++ csvMapGo bf m recs).map Item.id).Nodup := by
  intro recs
  induction recs with
  | nil => intro l m _ _ hnd; simpa [csvMapGo] using hnd
  | cons r rs ih =>
    intro l m hall hb hnd
    obtain ⟨hm1, hid⟩ := mkCsvItem_fresh bf (hall r (by simp))
    have heq : l ++ csvMapGo bf m (r :: rs) =
        (l ++ [(mkCsvItem bf m r).2]) ++ csvMapGo bf (m + 1) rs := by
      rw [← hm1, List.append_assoc]
      rfl
    rw [heq]
    apply ih
    · intro r2 hr2
      exact hall r2 (by simp [hr2])
    · intro it hit
      rcases List.mem_append.mp hit with hit | hit
      · exact le_trans (hb it hit) (by omega)
      · have hit' : it = (mkCsvItem bf m r).2 := by simpa using hit
        subst hit'
        rw [hid]
        simp [numOrZero]
    · rw [List.map_append, List.nodup_append]
      refine ⟨hnd, by simp, ?_⟩
      intro a ha hb2
      simp only [List.map_cons, List.map_nil, List.mem_cons, List.not_mem_nil, or_false] at hb2
      rw [hid] at hb2
      obtain ⟨it, hit, hita⟩ := List.mem_map.mp ha
      have h1 := hb it hit
      rw [hita, hb2] at h1
      simp [numOrZero] at h1

/-- The list of item ids across the whole store. -/
def idsOf (s : Store) : List (Option Int) := s.items.map Item.id

/-- C3 property (amended): every write endpoint preserves the uniqueness of
the `id` field across the whole store, with the CSV-import conjunct
restricted to uploads whose rows supply no id at all — the `itemid`/`id`
cell of every row is absent or blank.  On blank cells `Number` returns the
falsy `0` in JavaScript exactly as in the embedding, so this boundary is
faithful; a non-blank numeric cell (including forms such as `1e0` that the
integer-literal `jsNum` does not model) is stored verbatim by the handler
and is outside this conjunct. -/
def idUniquenessPreserved (s : Store) : Prop :=
  (∀ v i bf qf, (idsOf (claimEndpoint s v i bf qf).2).Nodup) ∧
  (∀ v i bf qf, (idsOf (unclaimEndpoint s v i bf qf).2).Nodup) ∧
  (∀ i qf body, (idsOf (adminUpdateItem s i qf body).2).Nodup) ∧
  (∀ c n pr bf qf, (idsOf (createPersonEndpoint s c n pr bf qf).2).Nodup) ∧
  (∀ c qf body, (idsOf (updatePersonEndpoint s c qf body).2).Nodup) ∧
  (∀ c qf, (idsOf (deletePersonEndpoint s c qf).2).Nodup) ∧
  (∀ csv bf, (∀ r ∈ parseCsvText csv, jsTrim (csvRecIdCell r) = "") →
    (idsOf (uploadCsvText s csv bf).2).Nodup)

/-- C3 (amended): starting from a normalized store with pairwise-distinct
item ids, claims, unclaims, admin item updates, person creation, person
update and person deletion keep the ids pairwise distinct, and so does a
CSV import none of whose rows supplies an id value at all (blank or absent
`itemid`/`id` cells; fresh ids are assigned as max-seen + 1).  A CSV row
that does supply a numeric id is stored verbatim and can collide — see the
counterexample. -/
theorem c3_id_uniqueness_amended (s : Store) (hn : normalizeStore s = s)
    (hu : (idsOf s).Nodup) : idUniquenessPreserved s := by
  have hmap : ∀ (p : Item → Bool) (f : Item → Item), (∀ x : Item, (f x).id = x.id) →
      ((updateFirst p f s.items).map Item.id).Nodup := by
    intro p f hf
    rw [map_updateFirst Item.id p f hf]
    exact hu
  refine ⟨?_, ?_, ?_, ?_, ?_, ?_, ?_⟩
  · intro v i bf qf
    rcases claimEndpoint_store_cases s hn v i bf qf with h | h <;> rw [idsOf, h]
    · exact hu
    · exact hmap _ _ (setClaim_id (some v))
  · intro v i bf qf
    rcases unclaimEndpoint_store_cases s hn v i bf qf with h | h <;> rw [idsOf, h]
    · exact hu
    · exact hmap _ _ (setClaim_id none)
  · intro i qf body
    rcases adminUpdateItem_store_cases s hn i qf body with h | h <;> rw [idsOf, h]
    · exact hu
    · exact hmap _ _ (adminApply_id (reqFamily qf body.family) body)
  · intro c n pr bf qf
    rw [idsOf, createPerson_items s hn c n pr bf qf]
    exact hu
  · intro c qf body
    rw [idsOf, updatePerson_items s hn c qf body]
    exact hu
  · intro c qf
    by_cases hc : c = ""
    · rw [idsOf, deletePerson_fail_store hn (Or.inl hc)]; exact hu
    · cases hf : (s.people.find? (personPred c (reqFamily qf none))).isSome with
      | false => rw [idsOf, deletePerson_fail_store hn (Or.inr hf)]; exact hu
      | true =>
        rw [idsOf, deletePerson_ok hn hc hf]
        exact List.Nodup.sublist (List.Sublist.map Item.id (List.filter_sublist s.items)) hu
  · intro csv bf hall
    rcases uploadCsvText_store_cases s hn csv bf with h | h <;> rw [idsOf, h]
    · exact hu
    · exact csvMapGo_ids_nodup bf (parseCsvText csv) s.items (storeMaxId s.items)
        (fun r hr => csvRecId_falsy_of_blank (hall r hr))
        (fun it hit => storeMaxId_ge_mem hit) hu

/-- Counterexample to C3 as stated: importing the CSV text
`"id,itemName\n1,Y\n"` into a store already holding an item with id 1 uses
the supplied id verbatim and produces two items with id 1. -/
theorem c3_counterexample :
    (idsOf storeA).Nodup ∧
      ¬ (idsOf (uploadCsvText storeA "id,itemName\n1,Y\n" none).2).Nodup := by
  constructor
  · decide
  · decide

/-- Witness for C3: an import whose single row carries no id keeps the ids
distinct, via the amended theorem. -/
theorem c3_witness :
    normalizeStore storeA = storeA ∧ (idsOf storeA).Nodup ∧
      (idsOf (uploadCsvText storeA "itemName\nSocks\n" none).2).Nodup :=
  ⟨by decide, by decide,
    (c3_id_uniqueness_amended storeA (by decide) (by decide)).2.2.2.2.2.2
      "itemName\nSocks\n" none (by decide)⟩

/-! ## C4: legacy-field synchronization -/

/-- The two legacy-sync equations of the spec: `notes` mirrors `details`
and `tag` mirrors `tags` joined by `"/"`. -/
def itemSynced (it : Item) : Prop :=
  it.notes = it.details ∧ it.tag = some (jsTagJoin it.tags)

instance (it : Item) : Decidable (itemSynced it) :=
  inferInstanceAs (Decidable (it.notes = it.details ∧ it.tag = some (jsTagJoin it.tags)))

/-- Every item of the store satisfies the sync equations. -/
def allSynced (s : Store) : Prop := ∀ it ∈ s.items, itemSynced it

instance (s : Store) : Decidable (allSynced s) :=
  inferInstanceAs (Decidable (∀ it ∈ s.items, itemSynced it))

theorem setClaim_synced (v : Option String) (x : Item) (h : itemSynced x) :
    itemSynced (setClaim v x) := h

theorem adminFinish_synced (f : String) (it : Item) : itemSynced (adminFinish f it) := by
  unfold adminFinish
  by_cases hf : truthyS it.family = true <;> simp [itemSynced, hf]

theorem adminApply_synced (f : String) (body : ItemBody) (it : Item) :
    itemSynced (adminApply f body it) :=
  adminFinish_synced f (adminApplyFields body it)

theorem mkCsvItem_synced (bf : Option String) (m : Int) (r : List (String × String)) :
    itemSynced (mkCsvItem bf m r).2 := by
  constructor <;> rfl

theorem csvMapGo_synced (bf : Option String) :
    ∀ (recs : List (List (String × String))) (m : Int),
      ∀ it ∈ csvMapGo bf m recs, itemSynced it := by
  intro recs
  induction recs with
  | nil => intro m it hit; simp [csvMapGo] at hit
  | cons r rs ih =>
    intro m it hit
    simp only [csvMapGo, List.mem_cons] at hit
    rcases hit with rfl | hit
    · exact mkCsvItem_synced bf m r
    · exact ih (mkCsvItem bf m r).1 it hit

/-- C4 property (amended): every write endpoint leaves every persisted item
satisfying the two legacy-sync equations, provided the loaded store already
satisfied them; the CSV import establishes them unconditionally on the
items it adds. -/
def syncPreserved (s : Store) : Prop :=
  (∀ v i bf qf, allSynced (claimEndpoint s v i bf qf).2) ∧
  (∀ v i bf qf, allSynced (unclaimEndpoint s v i bf qf).2) ∧
  (∀ i qf body, allSynced (adminUpdateItem s i qf body).2) ∧
  (∀ c n pr bf qf, allSynced (createPersonEndpoint s c n pr bf qf).2) ∧
  (∀ c qf body, allSynced (updatePersonEndpoint s c qf body).2) ∧
  (∀ c qf, allSynced (deletePersonEndpoint s c qf).2) ∧
  (∀ csv bf, allSynced (uploadCsvText s csv bf).2)

/-- C4 (amended): on a normalized store whose items all satisfy
`notes = details` and `tag = tags.join("/")`, every write — CSV import,
admin item update, claim, unclaim, person operations — persists a store
whose items all still satisfy both equations, the admin item update and the
CSV import (re-)establishing them on the touched items unconditionally.  A
loaded legacy store violating the equations keeps the violation across
writes that do not touch the offending fields — see the counterexample. -/
theorem c4_sync_amended (s : Store) (hn : normalizeStore s = s) (hs : allSynced s) :
    syncPreserved s := by
  refine ⟨?_, ?_, ?_, ?_, ?_, ?_, ?_⟩
  · intro v i bf qf
    rcases claimEndpoint_store_cases s hn v i bf qf with h | h <;> rw [h]
    · exact hs
    · intro it hit
      exact updateFirst_forall (setClaim_synced (some v)) hs it hit
  · intro v i bf qf
    rcases unclaimEndpoint_store_cases s hn v i bf qf with h | h <;> rw [h]
    · exact hs
    · intro it hit
      exact updateFirst_forall (setClaim_synced none) hs it hit
  · intro i qf body
    rcases adminUpdateItem_store_cases s hn i qf body with h | h <;> rw [h]
    · exact hs
    · intro it hit
      exact updateFirst_forall (fun x _ => adminApply_synced (reqFamily qf body.family) body x)
        hs it hit
  · intro c n pr bf qf
    intro it hit
    rw [createPerson_items s hn c n pr bf qf] at hit
    exact hs it hit
  · intro c qf body
    intro it hit
    rw [updatePerson_items s hn c qf body] at hit
    exact hs it hit
  · intro c qf
    by_cases hc : c = ""
    · rw [deletePerson_fail_store hn (Or.inl hc)]; exact hs
    · cases hf : (s.people.find? (personPred c (reqFamily qf none))).isSome with
      | false => rw [deletePerson_fail_store hn (Or.inr hf)]; exact hs
      | true =>
        rw [deletePerson_ok hn hc hf]
        intro it hit
        exact hs it (List.mem_of_mem_filter hit)
  · intro csv bf
    rcases uploadCsvText_store_cases s hn csv bf with h | h <;> rw [h]
    · exact hs
    · intro it hit
      rcases List.mem_append.mp hit with hit | hit
      · exact hs it hit
      · exact csvMapGo_synced bf (parseCsvText csv) (storeMaxId s.items) it hit

/-- A normalized store whose single legacy item violates both sync
equations (`notes ≠ details`, `tag ≠ tags.join("/")`). -/
def itemUnsynced : Item :=
  { itemA with
    tag := some "a,b"
    tags := some ["a", "b"]
    notes := some "y"
    details := some "x" }

/-- A normalized store holding only `itemUnsynced`. -/
def storeUnsynced : Store := { people := [], items := [itemUnsynced] }

/-- Counterexample to C4 as stated: a claim — a write that loads,
normalizes, mutates and saves — persists an item with `notes ≠ details` and
`tag ≠ tags.join("/")`, because neither the normalization nor the claim
handler repairs the legacy fields. -/
theorem c4_counterexample :
    (claimEndpoint storeUnsynced "V" 1 none none).1.success = true ∧
      ¬ allSynced (claimEndpoint storeUnsynced "V" 1 none none).2 := by
  constructor
  · decide
  · decide

/-- Witness for C4 at the synced one-item store. -/
theorem c4_witness :
    normalizeStore storeA = storeA ∧ allSynced storeA ∧
      allSynced (claimEndpoint storeA "V" 1 none none).2 :=
  ⟨by decide, by decide, (c4_sync_amended storeA (by decide) (by decide)).1 "V" 1 none none⟩

/-! ## C6: CSV import of a quoted field with an embedded comma -/

/-- The empty store. -/
def emptyStore : Store := { people := [], items := [] }

/-- The CSV text of the spec's example: a quoted `tags` cell with an
embedded comma. -/
def c6csv : String := "itemName,recipientCode,tags\nBike,LAUREN,\"red,shiny\"\n"

/-- Evaluation of the CSV upload on the spec's example.  The row-splitting
loop of `parseCsvText` strips the quote characters while assembling each
row, so `splitRow` sees the unquoted row `Bike,LAUREN,red,shiny`, splits at
the embedded comma, and the fourth cell falls outside the three header
columns: the imported item ends up with `tags = ["red"]` — not
`["red","shiny"]` as the parser's own description (and the spec) promise. -/
theorem c6_csv_quoted_field_bug :
    (uploadCsvText emptyStore c6csv none).1.success = true ∧
      (uploadCsvText emptyStore c6csv none).2.items.map Item.itemName = ["Bike"] ∧
      (uploadCsvText emptyStore c6csv none).2.items.map Item.recipientCode = ["LAUREN"] ∧
      (uploadCsvText emptyStore c6csv none).2.items.map Item.tags = [some ["red"]] := by
  refine ⟨?_, ?_, ?_, ?_⟩ <;> decide

end Wishlist
